import Mathlib

/-!
Verification of the OptSched CUDA scheduling core against its design notes.

This file gives a shallow embedding of the two source files

  src/lib/Scheduler/cuda_ready_list.cu    (class ReadyList)
  src/lib/Scheduler/cuda_sched_region.cu  (SchedRegion::FindOptimalSchedule and helpers)

and proves or refutes the documented properties of the ready-instruction
priority queue and of the scheduling orchestrator.

Machine integers: the priority key is a C unsigned long (64 bits); the
embedding uses Nat with an explicit reduction modulo 2 ^ 64 at the points
where the C code can overflow.  Schedule costs, lengths and timeouts are C
ints and long long, embedded as Int (the sentinel INVALID_VALUE is -1).

Classes that the two translation units use but whose code is outside src/
(ArrayList and PriorityArrayList from cuda_lnkd_lst.cuh, SchedInstruction,
Utilities) are modelled from the specification text; each such definition
carries a comment saying so.
-/

namespace OptSched

/-! ## Priority schemes (enum LISTSCHED_HEURISTIC values used by ReadyList) -/

/-- The priority criteria handled by the switch statements of
ReadyList::ReadyList and ReadyList::CmputKey_. -/
inductive Heur where
  | CP    -- LSH_CP: critical path
  | CPR   -- LSH_CPR: critical path with resources (same fields as CP)
  | LUC   -- LSH_LUC: dynamic last-use count
  | UC    -- LSH_UC: static use count
  | NID   -- LSH_NID: node id (reversed)
  | LLVM  -- LSH_LLVM: input LLVM order (same fields as NID)
  | ISO   -- LSH_ISO: input schedule order (reversed)
  | SC    -- LSH_SC: successor count
  | LS    -- LSH_LS: latency sum
deriving DecidableEq, Repr

/-- Attribute maxima that ReadyList::ReadyList reads from the DataDepGraph
(GetRootInst and GetCrntLwrBound for the critical path, GetMaxUseCnt,
GetInstCnt, GetMaxFileSchedOrder, GetMaxScsrCnt, GetMaxLtncySum). -/
structure DDGInfo where
  maxCrtclPath : Nat
  maxUseCnt : Nat
  instCnt : Nat
  maxFileSchedOrder : Nat
  maxScsrCnt : Nat
  maxLtncySum : Nat
deriving DecidableEq, Repr

/-- Per-instruction attributes read by ReadyList::CmputKey_.  The field
lastUseCnt is the cached value returned by GetLastUseCnt and newLastUseCnt
the value CmputLastUseCnt recomputes; the recomputation itself lives in
SchedInstruction, outside src/, so both values are inputs here. -/
structure InstAttrs where
  crtclPath : Nat        -- GetCrtclPath(DIR_BKWRD)
  useCnt : Nat           -- GetUseCnt()
  lastUseCnt : Nat       -- GetLastUseCnt()
  newLastUseCnt : Nat    -- CmputLastUseCnt()
  nodeID : Nat           -- GetNodeID()
  fileSchedOrder : Nat   -- GetFileSchedOrder()
  scsrCnt : Nat          -- GetScsrCnt()
  ltncySum : Nat         -- GetLtncySum()
deriving DecidableEq, Repr

/-- Halving recursion with a fuel argument, used to define the bit length
structurally so that it evaluates by kernel reduction. -/
def bitsNeededAux : Nat → Nat → Nat
  | _, 0 => 0
  | 0, _ + 1 => 0
  | fuel + 1, n + 1 => bitsNeededAux fuel ((n + 1) / 2) + 1

/-- Modelled from the spec: Utilities::clcltBitsNeededToHoldNum is declared in
utilities.h, which is not under src/.  The spec fixes each key field to
exactly the number of bits needed to hold the maximum value, that is the
bit length of maxValue (the ceiling of log2 of maxValue plus one). -/
def clcltBitsNeededToHoldNum (n : Nat) : Nat := bitsNeededAux n n

/-- The computed width indeed holds the value it was computed from. -/
theorem lt_two_pow_bitsNeededAux :
    ∀ fuel n : Nat, n ≤ fuel → n < 2 ^ bitsNeededAux fuel n
  | fuel, 0, _ => by simp [bitsNeededAux]
  | 0, _ + 1, h => by omega
  | fuel + 1, n + 1, h => by
    have hle : (n + 1) / 2 ≤ fuel := by omega
    have ih := lt_two_pow_bitsNeededAux fuel ((n + 1) / 2) hle
    show n + 1 < 2 ^ (bitsNeededAux fuel ((n + 1) / 2) + 1)
    rw [pow_succ]
    omega

/-- The value a width was computed from fits in that width. -/
theorem lt_two_pow_clclt (n : Nat) : n < 2 ^ clcltBitsNeededToHoldNum n :=
  lt_two_pow_bitsNeededAux n n le_rfl

/-- Width of a C unsigned long on the target: 8 * sizeof(unsigned long). -/
def wordBits : Nat := 64

/-- ReadyList::AddPrirtyToKey_ (cuda_ready_list.cu lines 372-381): shift the
key left by the field width unless the key is still empty, then OR the new
field value in.  key is a C unsigned long, hence the reduction mod 2 ^ 64. -/
def AddPrirtyToKey (key : Nat) (keySize : Nat) (bitCnt : Nat) (val : Nat) :
    Nat × Nat :=
  (((if 0 < keySize then (key <<< bitCnt) % 2 ^ wordBits else key) ||| val)
      % 2 ^ wordBits,
   keySize + bitCnt)

/-- The loop shape shared by the two constructor loops and by CmputKey_: fold
AddPrirtyToKey over a list of (bit width, field value) pairs, threading
(key, keySize). -/
def packFields : Nat × Nat → List (Nat × Nat) → Nat × Nat
  | ks, [] => ks
  | ks, (b, v) :: rest => packFields (AddPrirtyToKey ks.1 ks.2 b v) rest

/-- Total bit width of a list of fields. -/
def fieldsBits : List (Nat × Nat) → Nat
  | [] => 0
  | (b, _) :: rest => b + fieldsBits rest

/-- Mathematical value of a big-endian concatenation of bounded fields;
used to characterise packFields. -/
def concatFields : List (Nat × Nat) → Nat
  | [] => 0
  | (_, v) :: rest => v * 2 ^ fieldsBits rest + concatFields rest

/-- Maximum field value of one criterion, as read by the constructor
(cuda_ready_list.cu lines 31-81): maxCrtclPath_, maxUseCnt_,
maxNodeID_ = instCnt - 1, maxInptSchedOrder_, maxScsrCnt_, maxLtncySum_. -/
def critMax (g : DDGInfo) : Heur → Nat
  | .CP => g.maxCrtclPath
  | .CPR => g.maxCrtclPath
  | .LUC => g.maxUseCnt
  | .UC => g.maxUseCnt
  | .NID => g.instCnt - 1
  | .LLVM => g.instCnt - 1
  | .ISO => g.maxFileSchedOrder
  | .SC => g.maxScsrCnt
  | .LS => g.maxLtncySum

/-- Bit width of one criterion field (crtclPathBits_, useCntBits_,
nodeID_Bits_, inptSchedOrderBits_, scsrCntBits_, ltncySumBits_). -/
def critBits (g : DDGInfo) (h : Heur) : Nat :=
  clcltBitsNeededToHoldNum (critMax g h)

/-- Field value contributed by one criterion for one instruction, as computed
by the switch of ReadyList::CmputKey_ (cuda_ready_list.cu lines 168-211).
NID and ISO are reversed against their maxima so that smaller raw values
rank higher. -/
def critVal (g : DDGInfo) (a : InstAttrs) : Heur → Nat
  | .CP => a.crtclPath
  | .CPR => a.crtclPath
  | .LUC => a.newLastUseCnt
  | .UC => a.useCnt
  | .NID => (g.instCnt - 1) - a.nodeID
  | .LLVM => (g.instCnt - 1) - a.nodeID
  | .ISO => g.maxFileSchedOrder - a.fileSchedOrder
  | .SC => a.scsrCnt
  | .LS => a.ltncySum

/-- Same as critVal except that the dynamic last-use-count criterion reads
the cached value instead of the recomputed one.  The key a queued entry was
inserted with is the key computed from the then-cached values, which is
stated through this function. -/
def critValCached (g : DDGInfo) (a : InstAttrs) : Heur → Nat
  | .LUC => a.lastUseCnt
  | h => critVal g a h

/-- totKeyBits of the first constructor loop (cuda_ready_list.cu lines
31-81): the sum of the configured field widths. -/
def totKeyBits (g : DDGInfo) (prirts : List Heur) : Nat :=
  fieldsBits (prirts.map fun h => (critBits g h, critMax g h))

/-- The key part of ReadyList::CmputKey_ (cuda_ready_list.cu lines 157-213):
the single source loop both packs the key and reports the changed flag; the
key packing is this fold of AddPrirtyToKey over the configured criteria. -/
def CmputKeyVal (g : DDGInfo) (prirts : List Heur) (a : InstAttrs) : Nat :=
  (packFields (0, 0) (prirts.map fun h => (critBits g h, critVal g a h))).1

/-- The changed flag of ReadyList::CmputKey_: it starts true, is reset to
false when isUpdate holds, and the LSH_LUC case sets it whenever the
recomputed last-use count differs from the cached one. -/
def CmputKeyChanged (prirts : List Heur) (a : InstAttrs) (isUpdate : Bool) :
    Bool :=
  !isUpdate ||
    prirts.any fun h =>
      match h with
      | .LUC => a.newLastUseCnt != a.lastUseCnt
      | _ => false

/-- maxPriority_ of the second constructor loop (cuda_ready_list.cu lines
93-125): every criterion contributes its maximum field value. -/
def MaxPriority (g : DDGInfo) (prirts : List Heur) : Nat :=
  (packFields (0, 0) (prirts.map fun h => (critBits g h, critMax g h))).1

/-- ReadyList::ReadyList as far as the key scheme is concerned: the
constructor asserts totKeyBits <= 8 * sizeof(unsigned long) (line 83), a
non-recoverable configuration failure, modelled as none; on success the
constructor stores maxPriority_, the value ReadyList::MaxPriority returns
(lines 383-384). -/
def ReadyListConstruct (g : DDGInfo) (prirts : List Heur) : Option Nat :=
  if totKeyBits g prirts ≤ wordBits then some (MaxPriority g prirts) else none

/-- Stated from the words of the spec, to be compared with the source fold:
the bitwise OR of each configured criterion maximum shifted left into its
field, first criterion most significant. -/
def orPackedMax (g : DDGInfo) : List Heur → Nat
  | [] => 0
  | h :: t => ((critMax g h) <<< (totKeyBits g t)) ||| orPackedMax g t

/-! ## Arithmetic characterisation of the key packing -/

/-- A concatenation of bounded fields fits in the sum of the field widths. -/
theorem concatFields_lt (fields : List (Nat × Nat))
    (hb : ∀ p ∈ fields, p.2 < 2 ^ p.1) :
    concatFields fields < 2 ^ fieldsBits fields := by
  induction fields with
  | nil => simp [concatFields, fieldsBits]
  | cons p rest ih =>
    obtain ⟨b, v⟩ := p
    have hv : v < 2 ^ b := hb (b, v) (List.mem_cons_self _ _)
    have hc : concatFields rest < 2 ^ fieldsBits rest :=
      ih                 (fun q hq => hb q (List.mem_cons_of_mem _ hq))
    show v * 2 ^ fieldsBits rest + concatFields rest < 2 ^ (b + fieldsBits rest)
    calc v * 2 ^ fieldsBits rest + concatFields rest
        < v * 2 ^ fieldsBits rest + 2 ^ fieldsBits rest := by omega
      _ = (v + 1) * 2 ^ fieldsBits rest := by ring
      _ ≤ 2 ^ b * 2 ^ fieldsBits rest :=
          Nat.mul_le_mul_right _ hv
      _ = 2 ^ (b + fieldsBits rest) := (pow_add 2 b (fieldsBits rest)).symm

/-- The fold of AddPrirtyToKey computes the big-endian concatenation of its
fields, as long as every field value fits in its width and the total width
fits in the machine word, so that neither the shift nor the OR overflows. -/
theorem packFields_eq : ∀ (fields : List (Nat × Nat)) (k s m : Nat),
    (∀ p ∈ fields, p.2 < 2 ^ p.1) → k < 2 ^ m →
    m + fieldsBits fields ≤ wordBits → (s = 0 → k = 0) →
    packFields (k, s) fields =
      (k * 2 ^ fieldsBits fields + concatFields fields, s + fieldsBits fields)
  | [], k, s, _, _, _, _, _ => by simp [packFields, concatFields, fieldsBits]
  | (b, v) :: rest, k, s, m, hb, hk, hm, hz => by
    have hv : v < 2 ^ b := hb (b, v) (List.mem_cons_self _ _)
    have hbrest : ∀ p ∈ rest, p.2 < 2 ^ p.1 :=
      fun q hq => hb q (List.mem_cons_of_mem _ hq)
    have hmcons : m + (b + fieldsBits rest) ≤ wordBits := hm
    have hb64 : 2 ^ b ≤ 2 ^ wordBits := Nat.pow_le_pow_right (by norm_num) (by omega)
    rcases Nat.eq_zero_or_pos s with hs | hs
    · -- first field: no shift is performed
      have hk0 : k = 0 := hz hs
      subst hk0; subst hs
      have step : AddPrirtyToKey 0 0 b v = (v, b) := by
        simp [AddPrirtyToKey, Nat.mod_eq_of_lt (lt_of_lt_of_le hv hb64)]
      have hz1 : b = 0 → v = 0 := by
        intro hb0; subst hb0; simpa using hv
      have ih := packFields_eq rest v b b hbrest hv (by omega) hz1
      show packFields (AddPrirtyToKey 0 0 b v) rest = _
      rw [step, ih]
      show (v * 2 ^ fieldsBits rest + concatFields rest, b + fieldsBits rest) =
        (0 * 2 ^ (b + fieldsBits rest) +
          (v * 2 ^ fieldsBits rest + concatFields rest), 0 + (b + fieldsBits rest))
      simp
    · -- subsequent field: shift then OR
      have hklt : k * 2 ^ b < 2 ^ (m + b) := by
        calc k * 2 ^ b < 2 ^ m * 2 ^ b :=
              (Nat.mul_lt_mul_right (Nat.two_pow_pos b)).mpr hk
          _ = 2 ^ (m + b) := (pow_add 2 m b).symm
      have hshift : (k <<< b) % 2 ^ wordBits = k * 2 ^ b := by
        rw [Nat.shiftLeft_eq]
        exact Nat.mod_eq_of_lt (lt_of_lt_of_le hklt
          (Nat.pow_le_pow_right (by norm_num) (by omega)))
      have hor : (k * 2 ^ b) ||| v = k * 2 ^ b + v := by
        rw [Nat.mul_comm k (2 ^ b)]
        exact (Nat.mul_add_lt_is_or hv k).symm
      have hsum : k * 2 ^ b + v < 2 ^ (m + b) := by
        have h1 : k + 1 ≤ 2 ^ m := hk
        calc k * 2 ^ b + v < k * 2 ^ b + 2 ^ b := by omega
          _ = (k + 1) * 2 ^ b := by ring
          _ ≤ 2 ^ m * 2 ^ b := Nat.mul_le_mul_right _ h1
          _ = 2 ^ (m + b) := (pow_add 2 m b).symm
      have step : AddPrirtyToKey k s b v = (k * 2 ^ b + v, s + b) := by
        simp only [AddPrirtyToKey, if_pos hs, hshift, hor]
        exact congrArg (·, s + b) (Nat.mod_eq_of_lt (lt_of_lt_of_le hsum
          (Nat.pow_le_pow_right (by norm_num) (by omega))))
      have ih := packFields_eq rest (k * 2 ^ b + v) (s + b) (m + b) hbrest hsum
        (by omega) (by omega)
      show packFields (AddPrirtyToKey k s b v) rest = _
      rw [step, ih]
      show ((k * 2 ^ b + v) * 2 ^ fieldsBits rest + concatFields rest,
              s + b + fieldsBits rest) =
        (k * 2 ^ (b + fieldsBits rest) +
          (v * 2 ^ fieldsBits rest + concatFields rest), s + (b + fieldsBits rest))
      rw [Prod.mk.injEq]
      constructor
      · rw [pow_add]; ring
      · omega

/-- The width of a criterion field list depends only on the criteria, not on
which instruction the values come from. -/
theorem fieldsBits_map_crit (g : DDGInfo) (f : Heur → Nat) :
    ∀ l : List Heur,
      fieldsBits (l.map fun h => (critBits g h, f h)) = totKeyBits g l
  | [] => rfl
  | h :: t => by
    simp only [List.map_cons, fieldsBits, totKeyBits] at *
    rw [fieldsBits_map_crit g f t]
    rfl

/-- Every in-range field value fits in the width computed for its
criterion.  This is the assert val <= maxVal of AddPrirtyToKey_ combined
with the width computation of the constructor. -/
theorem critFieldFits (g : DDGInfo) {v : Nat} {h : Heur}
    (hle : v ≤ critMax g h) : v < 2 ^ critBits g h :=
  lt_of_le_of_lt hle (lt_two_pow_clclt _)

/-- For in-range values and an in-budget configuration, the packing fold is
the plain big-endian field concatenation: no modular reduction happens. -/
theorem pack_map_eq_concat (g : DDGInfo) (f : Heur → Nat) (l : List Heur)
    (hfit : totKeyBits g l ≤ wordBits) (hb : ∀ h ∈ l, f h ≤ critMax g h) :
    (packFields (0, 0) (l.map fun h => (critBits g h, f h))).1 =
      concatFields (l.map fun h => (critBits g h, f h)) := by
  have hbf : ∀ p ∈ l.map fun h => (critBits g h, f h), p.2 < 2 ^ p.1 := by
    intro p hp
    obtain ⟨h, hh, rfl⟩ := List.mem_map.1 hp
    exact critFieldFits g (hb h hh)
  rw [packFields_eq _ 0 0 0 hbf (by norm_num)
      (by rw [fieldsBits_map_crit]; omega) (fun _ => rfl)]
  simp

/-- The spec packing of maxima is also the field concatenation of the
maxima, provided the configuration is within budget. -/
theorem orPackedMax_eq_concat (g : DDGInfo) :
    ∀ l : List Heur, totKeyBits g l ≤ wordBits →
      orPackedMax g l = concatFields (l.map fun h => (critBits g h, critMax g h))
  | [], _ => rfl
  | h :: t, hfit => by
    have hbits : fieldsBits (t.map fun x => (critBits g x, critMax g x)) =
        totKeyBits g t := fieldsBits_map_crit g _ t
    have hcons : totKeyBits g (h :: t) = critBits g h + totKeyBits g t := by
      simp only [totKeyBits, List.map_cons, fieldsBits]
    have htfit : totKeyBits g t ≤ wordBits := by omega
    have ih := orPackedMax_eq_concat g t htfit
    have hconc : concatFields (t.map fun x => (critBits g x, critMax g x)) <
        2 ^ totKeyBits g t := by
      rw [← hbits]
      apply concatFields_lt
      intro p hp
      obtain ⟨x, _, rfl⟩ := List.mem_map.1 hp
      exact critFieldFits g le_rfl
    show (critMax g h <<< totKeyBits g t) ||| orPackedMax g t = _
    rw [ih, Nat.shiftLeft_eq, Nat.mul_comm (critMax g h) (2 ^ totKeyBits g t),
      ← Nat.mul_add_lt_is_or hconc (critMax g h)]
    simp only [List.map_cons, concatFields, hbits]
    ring_nf

/-- Two width lists that agree on their first components have the same
total width. -/
theorem fieldsBits_congr_fst : ∀ l1 l2 : List (Nat × Nat),
    l1.map Prod.fst = l2.map Prod.fst → fieldsBits l1 = fieldsBits l2
  | [], [], _ => rfl
  | [], _ :: _, h => by simp at h
  | _ :: _, [], h => by simp at h
  | (b1, v1) :: t1, (b2, v2) :: t2, h => by
    simp only [List.map_cons, List.cons.injEq] at h
    obtain ⟨hb, ht⟩ := h
    show b1 + fieldsBits t1 = b2 + fieldsBits t2
    rw [hb, fieldsBits_congr_fst t1 t2 ht]

/-- Positional uniqueness: field lists with the same widths and in-range
values are determined by their concatenation value. -/
theorem concatFields_inj : ∀ l1 l2 : List (Nat × Nat),
    l1.map Prod.fst = l2.map Prod.fst →
    (∀ p ∈ l1, p.2 < 2 ^ p.1) → (∀ p ∈ l2, p.2 < 2 ^ p.1) →
    concatFields l1 = concatFields l2 → l1 = l2
  | [], [], _, _, _, _ => rfl
  | [], _ :: _, h, _, _, _ => by simp at h
  | _ :: _, [], h, _, _, _ => by simp at h
  | (b1, v1) :: t1, (b2, v2) :: t2, hf, h1, h2, hc => by
    simp only [List.map_cons, List.cons.injEq] at hf
    obtain ⟨hb, hft⟩ := hf
    subst hb
    have h1t : ∀ p ∈ t1, p.2 < 2 ^ p.1 := fun q hq => h1 q (List.mem_cons_of_mem _ hq)
    have h2t : ∀ p ∈ t2, p.2 < 2 ^ p.1 := fun q hq => h2 q (List.mem_cons_of_mem _ hq)
    have hS : fieldsBits t1 = fieldsBits t2 := fieldsBits_congr_fst t1 t2 hft
    have hc1 : concatFields t1 < 2 ^ fieldsBits t1 := concatFields_lt t1 h1t
    have hc2 : concatFields t2 < 2 ^ fieldsBits t1 := by
      rw [hS]; exact concatFields_lt t2 h2t
    have hc' : v1 * 2 ^ fieldsBits t1 + concatFields t1 =
        v2 * 2 ^ fieldsBits t1 + concatFields t2 := by
      simpa only [concatFields, hS] using hc
    have hdiv : ∀ v c : Nat, c < 2 ^ fieldsBits t1 →
        (v * 2 ^ fieldsBits t1 + c) / 2 ^ fieldsBits t1 = v := by
      intro v c hclt
      rw [Nat.mul_comm, Nat.mul_add_div (Nat.two_pow_pos _),
        Nat.div_eq_of_lt hclt, Nat.add_zero]
    have hveq : v1 = v2 := by
      have hq := congrArg (· / 2 ^ fieldsBits t1) hc'
      simpa only [hdiv v1 _ hc1, hdiv v2 _ hc2] using hq
    subst hveq
    have hceq : concatFields t1 = concatFields t2 := by omega
    rw [concatFields_inj t1 t2 hft h1t h2t hceq]

/-- ReadyList::CmputKey_ computes the exact field concatenation when every
value is in range (the assert of AddPrirtyToKey_) and the configured widths
fit in the word (the assert of the constructor). -/
theorem CmputKeyVal_eq_concat (g : DDGInfo) (prirts : List Heur) (a : InstAttrs)
    (hfit : totKeyBits g prirts ≤ wordBits)
    (hb : ∀ h ∈ prirts, critVal g a h ≤ critMax g h) :
    CmputKeyVal g prirts a =
      concatFields (prirts.map fun h => (critBits g h, critVal g a h)) :=
  pack_map_eq_concat g (critVal g a) prirts hfit hb

/-- The key computed from the cached last-use counts, likewise. -/
theorem cachedKeyVal_eq_concat (g : DDGInfo) (prirts : List Heur) (a : InstAttrs)
    (hfit : totKeyBits g prirts ≤ wordBits)
    (hb : ∀ h ∈ prirts, critValCached g a h ≤ critMax g h) :
    (packFields (0, 0) (prirts.map fun h => (critBits g h, critValCached g a h))).1 =
      concatFields (prirts.map fun h => (critBits g h, critValCached g a h)) :=
  pack_map_eq_concat g (critValCached g a) prirts hfit hb

/-! ## Claim C5 -/

/-- C5: for any priority configuration whose summed per-criterion field bit
widths exceed the machine word width, queue construction fails; for any
configuration whose summed widths fit, construction succeeds and the stored
MaxPriority value equals the bitwise OR of each configured criterion maximum
left-shifted into its field, first criterion most significant. -/
theorem readyListConstruct_maxPriority (g : DDGInfo) (prirts : List Heur) :
    ReadyListConstruct g prirts =
      if totKeyBits g prirts ≤ wordBits then some (orPackedMax g prirts)
      else none := by
  unfold ReadyListConstruct
  split
  · rename_i hfit
    rw [orPackedMax_eq_concat g prirts hfit]
    exact congrArg some (pack_map_eq_concat g (critMax g) prirts hfit
      (fun h _ => le_rfl))
  · rfl

/-! ## Claim C4 -/

/-- C4: two instructions whose configured-criterion field values agree on
every criterion except the first configured one compare by that first
criterion: the one with the larger first field value has the strictly
larger packed key, whatever the other criteria hold.  The hypotheses are
the configuration-time word-width assert and the per-value range asserts. -/
theorem cmputKey_firstCriterion_dominates (g : DDGInfo) (h0 : Heur)
    (rest : List Heur) (a b : InstAttrs)
    (hfit : totKeyBits g (h0 :: rest) ≤ wordBits)
    (hba : ∀ h ∈ h0 :: rest, critVal g a h ≤ critMax g h)
    (hbb : ∀ h ∈ h0 :: rest, critVal g b h ≤ critMax g h)
    (hagree : ∀ h ∈ rest, critVal g a h = critVal g b h)
    (hfirst : critVal g b h0 < critVal g a h0) :
    CmputKeyVal g (h0 :: rest) b < CmputKeyVal g (h0 :: rest) a := by
  rw [CmputKeyVal_eq_concat g _ a hfit hba, CmputKeyVal_eq_concat g _ b hfit hbb]
  simp only [List.map_cons, concatFields]
  have hrest : rest.map (fun h => (critBits g h, critVal g b h)) =
      rest.map (fun h => (critBits g h, critVal g a h)) :=
    List.map_congr_left fun h hh => by rw [hagree h hh]
  rw [hrest]
  exact Nat.add_lt_add_right
    ((Nat.mul_lt_mul_right (Nat.two_pow_pos _)).mpr hfirst) _

/-- Concrete data dependence graph maxima used by the witnesses. -/
def gW : DDGInfo :=
  { maxCrtclPath := 7, maxUseCnt := 3, instCnt := 8, maxFileSchedOrder := 0,
    maxScsrCnt := 0, maxLtncySum := 0 }

/-- Witness instruction with critical path 5 and node id 4. -/
def aW : InstAttrs :=
  { crtclPath := 5, useCnt := 0, lastUseCnt := 0, newLastUseCnt := 0,
    nodeID := 4, fileSchedOrder := 0, scsrCnt := 0, ltncySum := 0 }

/-- Witness instruction with critical path 4 and the same node id. -/
def bW : InstAttrs :=
  { crtclPath := 4, useCnt := 0, lastUseCnt := 0, newLastUseCnt := 0,
    nodeID := 4, fileSchedOrder := 0, scsrCnt := 0, ltncySum := 0 }

/-- Witness for C4 at the scheme critical-path then node-id: the
instruction with the larger critical path gets the larger key. -/
theorem cmputKey_firstCriterion_dominates_witness :
    CmputKeyVal gW [Heur.CP, Heur.NID] bW < CmputKeyVal gW [Heur.CP, Heur.NID] aW :=
  cmputKey_firstCriterion_dominates gW Heur.CP [Heur.NID] aW bW
    (by decide) (by decide) (by decide) (by decide) (by decide)

/-! ## Ready list state (ReadyList operations on the queue and the flags) -/

/-- SchedPriorities as ReadyList uses it: the configured criteria vector
and the isDynmc flag read by the UpdatePriorities assert. -/
structure SchedPriorities where
  vctr : List Heur
  isDynmc : Bool

/-- The read-only context of the ready-list operations: the graph maxima
and, per instruction number, the attributes GetInstByIndx exposes. -/
structure RLCtx where
  g : DDGInfo
  prirts : SchedPriorities
  attrs : Nat → InstAttrs

/-- The mutable state the ready-list operations touch: the per-instruction
ready-queued flag (IsInReadyList, stored on SchedInstruction), the priority
queue prirtyLst_ as an ordered list of (instruction number, key) pairs, and
the tracking list latestSubLst_. -/
structure RLState where
  flags : Nat → Bool
  prirtyLst : List (Nat × Nat)
  latestSubLst : List Nat

/-- The key AddInst computes for an instruction:
CmputKey_(inst, false, changed). -/
def instKey (c : RLCtx) (n : Nat) : Nat :=
  CmputKeyVal c.g c.prirts.vctr (c.attrs n)

/-- The key an entry was inserted with, computed from the last-use count
that was cached when the key was last computed; states the queue invariant
the update claims rely on. -/
def cachedKey (c : RLCtx) (n : Nat) : Nat :=
  (packFields (0, 0)
    (c.prirts.vctr.map fun h => (critBits c.g h, critValCached c.g (c.attrs n) h))).1

/-- Modelled from the spec: PriorityArrayList::InsrtElmnt lives in
cuda_lnkd_lst.cuh, outside src/; per the spec the queue is an ordered
container, so insertion places the new pair after every entry whose key is
greater or equal (descending order, stable for equal keys). -/
def insrtPrirty : List (Nat × Nat) → (Nat × Nat) → List (Nat × Nat)
  | [], e => [e]
  | x :: xs, e => if e.2 ≤ x.2 then x :: insrtPrirty xs e else e :: x :: xs

/-- ReadyList::AddInst (cuda_ready_list.cu lines 305-315): compute the key
and insert the pair into prirtyLst_.  Note that AddInst does not touch the
ready-queued flag. -/
def AddInst (c : RLCtx) (st : RLState) (n : Nat) : RLState :=
  { st with prirtyLst := insrtPrirty st.prirtyLst (n, instKey c n) }

/-- The loop body of AddLatestSubList_ for a not-yet-queued instruction
(cuda_ready_list.cu lines 265-273): AddInst, then PutInReadyList, then
record the instruction in latestSubLst_. -/
def addAndMark (c : RLCtx) (st : RLState) (n : Nat) : RLState :=
  let st1 := AddInst c st n
  { st1 with
    flags := fun m => if m = n then true else st1.flags m,
    latestSubLst := st1.latestSubLst ++ [n] }

/-- The scan of AddLatestSubList_ over the input already put into scan
order (tail toward head): stop at the first instruction that is already in
the ready list, otherwise add and mark it and continue. -/
def addLatestScan (c : RLCtx) (st : RLState) : List Nat → RLState
  | [] => st
  | n :: rest =>
    if st.flags n then st else addLatestScan c (addAndMark c st n) rest

/-- ReadyList::AddLatestSubList_ (cuda_ready_list.cu lines 249-279):
iterate from GetLastElmnt backward via GetPrevElmnt, that is over the
reversed sequence. -/
def AddLatestSubList_ (c : RLCtx) (st : RLState) (lst : List Nat) : RLState :=
  addLatestScan c st lst.reverse

/-- ReadyList::AddLatestSubLists (cuda_ready_list.cu lines 215-224): up to
two sequences; the entry assert that latestSubLst_ is empty is a
precondition of the theorems below. -/
def AddLatestSubLists (c : RLCtx) (st : RLState)
    (lst1 lst2 : Option (List Nat)) : RLState :=
  let st1 := match lst1 with
    | some l => AddLatestSubList_ c st l
    | none => st
  match lst2 with
  | some l => AddLatestSubList_ c st1 l
  | none => st1

/-- The flag clearing loop of ReadyList::RemoveLatestSubList: call
RemoveFromReadyList on each recorded instruction in order. -/
def clearFlags : (Nat → Bool) → List Nat → (Nat → Bool)
  | flags, [] => flags
  | flags, n :: rest => clearFlags (fun m => if m = n then false else flags m) rest

/-- ReadyList::RemoveLatestSubList (cuda_ready_list.cu lines 281-300):
call RemoveFromReadyList on every instruction recorded in latestSubLst_,
traversed with the GetFrstElmnt/GetNxtElmnt read iterator (used
non-destructively throughout this file, for example in Print and
UpdatePriorities).  The body contains no Reset of latestSubLst_ — compare
ReadyList::Reset at line 142, which does clear it — so the tracking list
is left in place; neither is prirtyLst_ touched. -/
def RemoveLatestSubList (st : RLState) : RLState :=
  { st with flags := clearFlags st.flags st.latestSubLst }

/-- Pointwise description of the flag clearing loop. -/
theorem clearFlags_apply : ∀ (flags : Nat → Bool) (lst : List Nat) (m : Nat),
    clearFlags flags lst m = if m ∈ lst then false else flags m
  | _, [], m => by simp [clearFlags]
  | flags, n :: rest, m => by
    rw [clearFlags, clearFlags_apply _ rest m]
    by_cases h1 : m ∈ rest
    · simp [h1]
    · by_cases h2 : m = n <;> simp [h1, h2, List.mem_cons]

/-- What one scan does: it appends some list of added instructions to the
tracking list, sets exactly their flags, and each added instruction was
unflagged before. -/
theorem addLatestScan_spec (c : RLCtx) : ∀ (ns : List Nat) (st : RLState),
    ∃ added : List Nat,
      (addLatestScan c st ns).latestSubLst = st.latestSubLst ++ added ∧
      (∀ m, ((addLatestScan c st ns).flags m = true ↔
        (st.flags m = true ∨ m ∈ added))) ∧
      (∀ m ∈ added, st.flags m = false)
  | [], st => ⟨[], by simp [addLatestScan], fun m => by simp [addLatestScan],
      by simp⟩
  | n :: rest, st => by
    by_cases hf : st.flags n
    · exact ⟨[], by simp [addLatestScan, hf], fun m => by simp [addLatestScan, hf],
        by simp⟩
    · obtain ⟨added, hlat, hflags, hpre⟩ := addLatestScan_spec c rest (addAndMark c st n)
      refine ⟨n :: added, ?_, ?_, ?_⟩
      · rw [addLatestScan, if_neg (by simp [hf]), hlat]
        simp [addAndMark, AddInst]
      · intro m
        rw [addLatestScan, if_neg (by simp [hf]), hflags m]
        by_cases hm : m = n
        · subst hm; simp [addAndMark, AddInst]
        · simp [addAndMark, AddInst, hm]
      · intro m hm
        rcases List.mem_cons.1 hm with hm | hm
        · subst hm; exact Bool.eq_false_iff.2 hf
        · have h1 := hpre m hm
          by_cases hmn : m = n
          · subst hmn
            simp [addAndMark, AddInst] at h1
          · simpa [addAndMark, AddInst, hmn] using h1

/-- The same description for one sequence as passed to AddLatestSubLists. -/
theorem addLatestSubList_spec (c : RLCtx) (st : RLState) (lst : List Nat) :
    ∃ added : List Nat,
      (AddLatestSubList_ c st lst).latestSubLst = st.latestSubLst ++ added ∧
      (∀ m, ((AddLatestSubList_ c st lst).flags m = true ↔
        (st.flags m = true ∨ m ∈ added))) ∧
      (∀ m ∈ added, st.flags m = false) :=
  addLatestScan_spec c lst.reverse st

/-- The same description for a full AddLatestSubLists call. -/
theorem addLatestSubLists_spec (c : RLCtx) (st : RLState)
    (lst1 lst2 : Option (List Nat)) :
    ∃ added : List Nat,
      (AddLatestSubLists c st lst1 lst2).latestSubLst = st.latestSubLst ++ added ∧
      (∀ m, ((AddLatestSubLists c st lst1 lst2).flags m = true ↔
        (st.flags m = true ∨ m ∈ added))) ∧
      (∀ m ∈ added, st.flags m = false) := by
  have hcomp : ∀ st1 : RLState,
      (∃ a1 : List Nat, st1.latestSubLst = st.latestSubLst ++ a1 ∧
        (∀ m, (st1.flags m = true ↔ (st.flags m = true ∨ m ∈ a1))) ∧
        (∀ m ∈ a1, st.flags m = false)) →
      ∀ l : List Nat,
      ∃ added : List Nat,
        (AddLatestSubList_ c st1 l).latestSubLst = st.latestSubLst ++ added ∧
        (∀ m, ((AddLatestSubList_ c st1 l).flags m = true ↔
          (st.flags m = true ∨ m ∈ added))) ∧
        (∀ m ∈ added, st.flags m = false) := by
    rintro st1 ⟨a1, hl1, hf1, hp1⟩ l
    obtain ⟨a2, hl2, hf2, hp2⟩ := addLatestSubList_spec c st1 l
    refine ⟨a1 ++ a2, ?_, ?_, ?_⟩
    · rw [hl2, hl1, List.append_assoc]
    · intro m
      rw [hf2 m, hf1 m, List.mem_append]
      tauto
    · intro m hm
      rcases List.mem_append.1 hm with hm | hm
      · exact hp1 m hm
      · have h2 := hp2 m hm
        rcases Bool.eq_false_iff.1 h2 with _
        by_cases hsm : st.flags m = true
        · exact absurd ((hf1 m).2 (Or.inl hsm)) (by simp [h2])
        · exact Bool.eq_false_iff.2 hsm
  have hid : ∃ a1 : List Nat, st.latestSubLst = st.latestSubLst ++ a1 ∧
      (∀ m, (st.flags m = true ↔ (st.flags m = true ∨ m ∈ a1))) ∧
      (∀ m ∈ a1, st.flags m = false) := ⟨[], by simp, fun m => by simp, by simp⟩
  cases lst1 with
  | none =>
    cases lst2 with
    | none =>
      exact ⟨[], by simp [AddLatestSubLists], fun m => by
        simp [AddLatestSubLists], by simp⟩
    | some l2 =>
      simpa [AddLatestSubLists] using hcomp st hid l2
  | some l1 =>
    cases lst2 with
    | none =>
      simpa [AddLatestSubLists] using addLatestSubList_spec c st l1
    | some l2 =>
      simpa [AddLatestSubLists] using
        hcomp (AddLatestSubList_ c st l1) (addLatestSubList_spec c st l1) l2

/-! ## Claim C3 -/

/-- The flag half of the round trip, which the code does deliver: starting
from a state whose tracking set is empty, AddLatestSubLists followed by
RemoveLatestSubList restores every ready-queued flag to its value before
the add (the removal clears exactly the recorded instructions, and each of
those was unflagged before the add). -/
theorem addRemove_restoresFlags (c : RLCtx) (st : RLState)
    (lst1 lst2 : Option (List Nat)) (hemp : st.latestSubLst = []) :
    ∀ m, (RemoveLatestSubList (AddLatestSubLists c st lst1 lst2)).flags m =
      st.flags m := by
  intro m
  obtain ⟨added, hlat, hflags, hpre⟩ := addLatestSubLists_spec c st lst1 lst2
  rw [hemp] at hlat
  show clearFlags (AddLatestSubLists c st lst1 lst2).flags
    (AddLatestSubLists c st lst1 lst2).latestSubLst m = st.flags m
  rw [clearFlags_apply, hlat]
  simp only [List.nil_append]
  by_cases hm : m ∈ added
  · rw [if_pos hm, hpre m hm]
  · rw [if_neg hm]
    have h1 := hflags m
    cases h2 : (AddLatestSubLists c st lst1 lst2).flags m <;>
      cases h3 : st.flags m <;> simp_all

/-- Concrete context shared by the ready-list claims. -/
def cW : RLCtx :=
  { g := gW, prirts := { vctr := [Heur.CP, Heur.NID], isDynmc := false },
    attrs := fun _ => aW }

/-- Concrete queue state: nothing queued, nothing tracked. -/
def stW : RLState :=
  { flags := fun _ => false, prirtyLst := [], latestSubLst := [] }

/-- C3, evaluated at the failing input: from the empty state, adding the
sequence 0,1,2 and then removing restores every ready-queued flag, but the
tracking set is not empty afterward — RemoveLatestSubList contains no
Reset of latestSubLst_, so the three recorded instructions 2,1,0 are still
there, where the claim, the spec and the entry assert of AddLatestSubLists
all require emptiness.  The code, not the claim, is at fault: Reset exists
(line 142) and the spec needs the clearing for repeated descend/backtrack
cycles. -/
theorem readyList_removeLeavesTrackingSet_bug :
    (∀ m, (RemoveLatestSubList (AddLatestSubLists cW stW (some [0, 1, 2]) none)).flags m =
      stW.flags m) ∧
    (RemoveLatestSubList (AddLatestSubLists cW stW (some [0, 1, 2]) none)).latestSubLst =
      [2, 1, 0] ∧
    ([2, 1, 0] : List Nat) ≠ [] :=
  ⟨addRemove_restoresFlags cW stW (some [0, 1, 2]) none rfl, by decide, by decide⟩

/-! ## Claim C7 -/

/-- Exact description of the scan when the scanned list has no duplicate:
the tracking list collects exactly the elements that were not yet flagged,
under the downward closure of flags along the scan order. -/
theorem addLatestScan_exact (c : RLCtx) : ∀ (ns : List Nat) (st : RLState),
    ns.Nodup →
    List.Pairwise (fun x y => st.flags x = true → st.flags y = true) ns →
    ∀ n, (n ∈ (addLatestScan c st ns).latestSubLst ↔
      (n ∈ st.latestSubLst ∨ (n ∈ ns ∧ st.flags n = false)))
  | [], st, _, _, n => by simp [addLatestScan]
  | n0 :: rest, st, hnd, hpw, n => by
    rcases List.pairwise_cons.1 hpw with ⟨hhead, htail⟩
    rcases List.nodup_cons.1 hnd with ⟨hn0, hndt⟩
    by_cases hf : st.flags n0
    · rw [addLatestScan, if_pos (by simp [hf])]
      constructor
      · exact fun h => Or.inl h
      · rintro (h | ⟨hmem, hflag⟩)
        · exact h
        · rcases List.mem_cons.1 hmem with rfl | hmem
          · rw [hf] at hflag; cases hflag
          · rw [hhead n hmem hf] at hflag; cases hflag
    · have hf0 : st.flags n0 = false := Bool.eq_false_iff.2 hf
      rw [addLatestScan, if_neg (by simp [hf])]
      have hpw1 : List.Pairwise
          (fun x y => (addAndMark c st n0).flags x = true →
            (addAndMark c st n0).flags y = true) rest := by
        refine htail.imp_of_mem ?_
        intro x y hx hy hxy hfx
        have hxne : x ≠ n0 := fun hc => hn0 (hc ▸ hx)
        have hyne : y ≠ n0 := fun hc => hn0 (hc ▸ hy)
        simp only [addAndMark, AddInst, if_neg hxne] at hfx
        simp only [addAndMark, AddInst, if_neg hyne]
        exact hxy hfx
      rw [addLatestScan_exact c rest (addAndMark c st n0) hndt hpw1 n]
      have hlat : (addAndMark c st n0).latestSubLst = st.latestSubLst ++ [n0] := by
        simp [addAndMark, AddInst]
      rw [hlat]
      by_cases hn : n = n0
      · subst hn
        simp [hf0, List.mem_append]
      · have hfl : (addAndMark c st n0).flags n = st.flags n := by
          simp [addAndMark, AddInst, hn]
        rw [hfl]
        simp only [List.mem_append, List.mem_cons, List.not_mem_nil, or_false]
        constructor
        · rintro ((h | rfl) | h)
          · exact Or.inl h
          · exact absurd rfl hn
          · exact Or.inr ⟨Or.inr h.1, h.2⟩
        · rintro (h | ⟨rfl | hmem, hflag⟩)
          · exact Or.inl (Or.inl h)
          · exact absurd rfl hn
          · exact Or.inr ⟨hmem, hflag⟩

/-- C7 counterexample: with a repeated instruction the stated precondition
holds, yet the scan stops at the mid-scan-flagged duplicate and instruction
0, though unqueued and in the sequence, is never added.  The sequence
0,1,2,1 is scanned from its tail: 1 and 2 are added, then the repeated 1 is
found flagged and the scan stops before reaching 0. -/
theorem addLatestSubList_exact_cex :
    List.Pairwise (fun x y => stW.flags y = true → stW.flags x = true)
      [0, 1, 2, 1] ∧
    ¬ (∀ n, n ∈ (AddLatestSubList_ cW stW [0, 1, 2, 1]).latestSubLst ↔
        (n ∈ [0, 1, 2, 1] ∧ stW.flags n = false)) := by
  constructor
  · decide
  · intro hall
    have h0 : (0 : Nat) ∈ (AddLatestSubList_ cW stW [0, 1, 2, 1]).latestSubLst :=
      (hall 0).2 ⟨by decide, rfl⟩
    have : (AddLatestSubList_ cW stW [0, 1, 2, 1]).latestSubLst = [1, 2] := by
      decide
    rw [this] at h0
    simp at h0

/-- C7 as amended: for a sequence without repeated instructions, under the
precondition that whenever a sequence element is already queued all
elements before it in forward order are also queued, the scan of
AddLatestSubList_ records exactly the not-yet-queued instructions of the
sequence. -/
theorem addLatestSubList_addsExactlyUnqueued (c : RLCtx) (st : RLState)
    (lst : List Nat) (hemp : st.latestSubLst = []) (hnd : lst.Nodup)
    (hmono : List.Pairwise (fun x y => st.flags y = true → st.flags x = true) lst) :
    ∀ n, (n ∈ (AddLatestSubList_ c st lst).latestSubLst ↔
      (n ∈ lst ∧ st.flags n = false)) := by
  intro n
  have hrev : List.Pairwise
      (fun x y => st.flags x = true → st.flags y = true) lst.reverse :=
    (List.pairwise_reverse).2 hmono
  rw [AddLatestSubList_,
    addLatestScan_exact c lst.reverse st (List.nodup_reverse.2 hnd) hrev n,
    hemp]
  simp [List.mem_reverse]

/-- Witness for the amended C7: sequence 0,1,2, nothing queued; each of the
three is recorded, checked here at instruction 1. -/
theorem addLatestSubList_addsExactlyUnqueued_witness :
    (1 ∈ (AddLatestSubList_ cW stW [0, 1, 2]).latestSubLst ↔
      (1 ∈ [0, 1, 2] ∧ stW.flags 1 = false)) :=
  addLatestSubList_addsExactlyUnqueued cW stW [0, 1, 2] rfl
    (by decide) (by decide) 1

/-! ## Claim C9 -/

/-- C9 counterexample: AddInst inserts the pair but does not set the
ready-queued flag, so after a bare AddInst on an unqueued instruction the
claimed conjunction fails: instruction 0 is in the queue with its key, but
its flag is still false. -/
theorem addInst_marksReady_cex :
    ¬ (((0, instKey cW 0) ∈ (AddInst cW stW 0).prirtyLst) ∧
       (AddInst cW stW 0).flags 0 = true) := by
  decide

/-- Minimal membership fact for the spec-modelled priority insertion. -/
theorem mem_insrtPrirty (e : Nat × Nat) : ∀ l : List (Nat × Nat),
    e ∈ insrtPrirty l e
  | [] => by simp [insrtPrirty]
  | x :: xs => by
    rw [insrtPrirty]
    split
    · exact List.mem_cons_of_mem _ (mem_insrtPrirty e xs)
    · exact List.mem_cons_self _ _

/-- C9 as amended: AddInst inserts the instruction with its computed key
and leaves every ready-queued flag unchanged; it is the caller inside
AddLatestSubList_ that marks the instruction right after the call, so after
that paired add-and-mark step the instruction is in the container with its
computed key and its flag is set, restoring the queue/flag consistency. -/
theorem addInst_insertsPair_callerMarks (c : RLCtx) (st : RLState) (n : Nat)
    (hflag : st.flags n = false) :
    ((n, instKey c n) ∈ (AddInst c st n).prirtyLst ∧
      (∀ m, (AddInst c st n).flags m = st.flags m)) ∧
    ((n, instKey c n) ∈ (addAndMark c st n).prirtyLst ∧
      (addAndMark c st n).flags n = true) := by
  refine ⟨⟨mem_insrtPrirty _ _, fun m => rfl⟩, ?_, ?_⟩
  · show (n, instKey c n) ∈ insrtPrirty st.prirtyLst (n, instKey c n)
    exact mem_insrtPrirty _ _
  · simp [addAndMark, AddInst]

/-- Witness for the amended C9 at instruction 0 of the empty queue. -/
theorem addInst_insertsPair_callerMarks_witness :
    (((0 : Nat), instKey cW 0) ∈ (AddInst cW stW 0).prirtyLst ∧
      (∀ m, (AddInst cW stW 0).flags m = stW.flags m)) ∧
    (((0 : Nat), instKey cW 0) ∈ (addAndMark cW stW 0).prirtyLst ∧
      (addAndMark cW stW 0).flags 0 = true) :=
  addInst_insertsPair_callerMarks cW stW 0 rfl

/-! ## Claim C6 -/

/-- Removal of the entry of one instruction from the queue (first match). -/
def removeEntry : List (Nat × Nat) → Nat → List (Nat × Nat)
  | [], _ => []
  | x :: xs, n => if x.1 = n then xs else x :: removeEntry xs n

/-- Modelled from the spec: PriorityArrayList::BoostElmnt lives in
cuda_lnkd_lst.cuh, outside src/; per the spec it reorders the entry to the
position its new key requires while the other entries stay in order:
remove the entry and re-insert it with the new key. -/
def BoostElmnt (l : List (Nat × Nat)) (n : Nat) (key : Nat) :
    List (Nat × Nat) :=
  insrtPrirty (removeEntry l n) (n, key)

/-- The changed report of CmputKey_(inst, true, changed) for one queued
instruction. -/
def updChanged (c : RLCtx) (n : Nat) : Bool :=
  CmputKeyChanged c.prirts.vctr (c.attrs n) true

/-- The body of the UpdatePriorities loop for one visited instruction:
recompute the key and boost the entry exactly when the changed flag is
reported. -/
def updStep (c : RLCtx) (acc : List (Nat × Nat) × List Nat) (n : Nat) :
    List (Nat × Nat) × List Nat :=
  if updChanged c n then (BoostElmnt acc.1 n (instKey c n), acc.2 ++ [n])
  else acc

/-- ReadyList::UpdatePriorities (cuda_ready_list.cu lines 348-362); the
assert prirts_.isDynmc is a precondition of the claim below.  The queue
iteration is modelled from the spec (the iterator lives in
PriorityArrayList, outside src/): each queued instruction is visited
exactly once, in the order the queue had at entry.  Returns the updated
state together with the list of BoostElmnt calls made. -/
def UpdatePriorities (c : RLCtx) (st : RLState) : RLState × List Nat :=
  let r := (st.prirtyLst.map Prod.fst).foldl (updStep c) (st.prirtyLst, [])
  ({ st with prirtyLst := r.1 }, r.2)

/-- The boost calls recorded by the loop are exactly the visited
instructions whose changed flag is reported. -/
theorem updFold_snd (c : RLCtx) : ∀ (ns : List Nat)
    (l : List (Nat × Nat)) (acc : List Nat),
    (ns.foldl (updStep c) (l, acc)).2 =
      acc ++ ns.filter (fun n => updChanged c n)
  | [], _, _ => by simp
  | n :: rest, l, acc => by
    rw [List.foldl_cons, updStep]
    by_cases hc : updChanged c n
    · rw [if_pos hc, updFold_snd c rest _ _, List.filter_cons, if_pos (by simp [hc])]
      simp
    · rw [if_neg hc, updFold_snd c rest _ _, List.filter_cons, if_neg (by simp [hc])]

/-- Inserting an entry that a filter rejects does not change the filtered
list. -/
theorem filter_insrtPrirty {p : Nat × Nat → Bool} (e : Nat × Nat)
    (hpe : p e = false) : ∀ l : List (Nat × Nat),
    (insrtPrirty l e).filter p = l.filter p
  | [] => by simp [insrtPrirty, hpe]
  | x :: xs => by
    rw [insrtPrirty]
    split
    · rw [List.filter_cons, List.filter_cons, filter_insrtPrirty e hpe xs]
    · rw [List.filter_cons (x := e), hpe]
      simp

/-- Removing an entry that a filter rejects does not change the filtered
list. -/
theorem filter_removeEntry {p : Nat × Nat → Bool} (n : Nat)
    (hp : ∀ k, p (n, k) = false) : ∀ l : List (Nat × Nat),
    (removeEntry l n).filter p = l.filter p
  | [] => rfl
  | x :: xs => by
    rw [removeEntry]
    split
    · rename_i hx
      obtain ⟨x1, x2⟩ := x
      rcases hx with rfl
      rw [List.filter_cons, hp x2]
      simp
    · rw [List.filter_cons, List.filter_cons, filter_removeEntry n hp xs]

/-- The loop never reorders the entries it does not boost: filtering away
the changed instructions commutes with the whole loop. -/
theorem updFold_filter (c : RLCtx) : ∀ (ns : List Nat)
    (l : List (Nat × Nat)) (acc : List Nat),
    ((ns.foldl (updStep c) (l, acc)).1).filter (fun q => !updChanged c q.1) =
      l.filter (fun q => !updChanged c q.1)
  | [], _, _ => rfl
  | n :: rest, l, acc => by
    rw [List.foldl_cons, updStep]
    by_cases hc : updChanged c n
    · rw [if_pos hc, updFold_filter c rest _ _]
      show (insrtPrirty (removeEntry l n) (n, instKey c n)).filter _ = _
      rw [filter_insrtPrirty _ (by simp [hc]),
        filter_removeEntry n (fun k => by simp [hc])]
    · rw [if_neg hc, updFold_filter c rest _ _]

/-- Mapped criterion pairs agree exactly when the value functions agree on
the list. -/
theorem map_pair_eq_forall (g : DDGInfo) (f f' : Heur → Nat) :
    ∀ l : List Heur,
    l.map (fun h => (critBits g h, f h)) = l.map (fun h => (critBits g h, f' h)) →
    ∀ h ∈ l, f h = f' h
  | [], _, h, hh => by cases hh
  | x :: t, heq, h, hh => by
    simp only [List.map_cons, List.cons.injEq, Prod.mk.injEq] at heq
    rcases List.mem_cons.1 hh with rfl | hh
    · exact heq.1.2
    · exact map_pair_eq_forall g f f' t heq.2 h hh

/-- Bridge: under the word-width and range asserts, the changed flag of the
update-mode key recomputation reports exactly that the recomputed key
differs from the key computed from the cached last-use count. -/
theorem updChanged_iff_keyDiff (c : RLCtx) (n : Nat)
    (hfit : totKeyBits c.g c.prirts.vctr ≤ wordBits)
    (hbn : ∀ h ∈ c.prirts.vctr, critVal c.g (c.attrs n) h ≤ critMax c.g h)
    (hbc : ∀ h ∈ c.prirts.vctr, critValCached c.g (c.attrs n) h ≤ critMax c.g h) :
    (updChanged c n = true ↔ instKey c n ≠ cachedKey c n) := by
  have hkey : instKey c n =
      concatFields (c.prirts.vctr.map fun h =>
        (critBits c.g h, critVal c.g (c.attrs n) h)) :=
    CmputKeyVal_eq_concat c.g c.prirts.vctr (c.attrs n) hfit hbn
  have hckey : cachedKey c n =
      concatFields (c.prirts.vctr.map fun h =>
        (critBits c.g h, critValCached c.g (c.attrs n) h)) :=
    cachedKeyVal_eq_concat c.g c.prirts.vctr (c.attrs n) hfit hbc
  have hany : updChanged c n =
      c.prirts.vctr.any fun h =>
        match h with
        | .LUC => (c.attrs n).newLastUseCnt != (c.attrs n).lastUseCnt
        | _ => false := by
    simp [updChanged, CmputKeyChanged]
  constructor
  · intro hch hkeq
    rw [hany] at hch
    obtain ⟨h, hmem, hh⟩ := List.any_eq_true.1 hch
    have hne : h = Heur.LUC ∧
        (c.attrs n).newLastUseCnt ≠ (c.attrs n).lastUseCnt := by
      cases h <;> simp_all
    rw [hkey, hckey] at hkeq
    have hlists := concatFields_inj _ _
      (by simp [List.map_map, Function.comp])
      (by
        intro p hp
        obtain ⟨x, hx, rfl⟩ := List.mem_map.1 hp
        exact critFieldFits c.g (hbn x hx))
      (by
        intro p hp
        obtain ⟨x, hx, rfl⟩ := List.mem_map.1 hp
        exact critFieldFits c.g (hbc x hx))
      hkeq
    have hpoint := map_pair_eq_forall c.g _ _ _ hlists h hmem
    rcases hne with ⟨rfl, hne⟩
    exact hne hpoint
  · intro hkne
    by_contra hch
    have hall : ∀ h ∈ c.prirts.vctr,
        critVal c.g (c.attrs n) h = critValCached c.g (c.attrs n) h := by
      intro h hmem
      cases h <;> simp [critVal, critValCached]
      rw [hany] at hch
      have := fun hx => hch (List.any_eq_true.2 ⟨Heur.LUC, hmem, by simpa using hx⟩)
      by_contra hne
      exact this (by simpa using hne)
    apply hkne
    rw [hkey, hckey]
    exact congrArg concatFields (List.map_congr_left fun h hh => by rw [hall h hh])

/-- C6: with a dynamic scheme configured (the UpdatePriorities assert), and
with the queue invariant that every stored key is the key computed from the
cached last-use counts, UpdatePriorities boosts exactly the entries whose
recomputed key differs from their stored key, and the entries whose key is
unchanged keep their relative order (filtering away the boosted ones gives
back the original queue). -/
theorem updatePriorities_boostsExactlyChanged (c : RLCtx) (st : RLState)
    (hdyn : c.prirts.isDynmc = true)
    (hfit : totKeyBits c.g c.prirts.vctr ≤ wordBits)
    (hbn : ∀ p ∈ st.prirtyLst, ∀ h ∈ c.prirts.vctr,
      critVal c.g (c.attrs p.1) h ≤ critMax c.g h)
    (hbc : ∀ p ∈ st.prirtyLst, ∀ h ∈ c.prirts.vctr,
      critValCached c.g (c.attrs p.1) h ≤ critMax c.g h)
    (hstored : ∀ p ∈ st.prirtyLst, p.2 = cachedKey c p.1) :
    (∀ p ∈ st.prirtyLst,
      (p.1 ∈ (UpdatePriorities c st).2 ↔ instKey c p.1 ≠ p.2)) ∧
    ((UpdatePriorities c st).1.prirtyLst.filter (fun q => !updChanged c q.1) =
      st.prirtyLst.filter (fun q => !updChanged c q.1)) := by
  constructor
  · intro p hp
    have hmem1 : p.1 ∈ st.prirtyLst.map Prod.fst := List.mem_map_of_mem _ hp
    have hsnd := updFold_snd c (st.prirtyLst.map Prod.fst) st.prirtyLst []
    show p.1 ∈ ((st.prirtyLst.map Prod.fst).foldl (updStep c)
      (st.prirtyLst, [])).2 ↔ _
    rw [hsnd, List.nil_append, List.mem_filter]
    rw [hstored p hp]
    have hbridge := updChanged_iff_keyDiff c p.1 hfit (hbn p hp) (hbc p hp)
    constructor
    · intro ⟨_, hch⟩
      exact hbridge.1 hch
    · intro hne
      exact ⟨hmem1, hbridge.2 hne⟩
  · exact updFold_filter c (st.prirtyLst.map Prod.fst) st.prirtyLst []

/-- Graph maxima for the update witness: use counts up to 3, four
instructions. -/
def gW6 : DDGInfo :=
  { maxCrtclPath := 0, maxUseCnt := 3, instCnt := 4, maxFileSchedOrder := 0,
    maxScsrCnt := 0, maxLtncySum := 0 }

/-- Context for the update witness: dynamic scheme last-use count then node
id; instruction 0 has a changed last-use count, instruction 1 does not. -/
def cW6 : RLCtx :=
  { g := gW6, prirts := { vctr := [Heur.LUC, Heur.NID], isDynmc := true },
    attrs := fun n =>
      if n = 0 then
        { crtclPath := 0, useCnt := 0, lastUseCnt := 1, newLastUseCnt := 2,
          nodeID := 0, fileSchedOrder := 0, scsrCnt := 0, ltncySum := 0 }
      else
        { crtclPath := 0, useCnt := 0, lastUseCnt := 1, newLastUseCnt := 1,
          nodeID := 1, fileSchedOrder := 0, scsrCnt := 0, ltncySum := 0 } }

/-- Queue state for the update witness, with both stored keys computed from
the cached last-use counts. -/
def stW6 : RLState :=
  { flags := fun _ => true, prirtyLst := [(0, 7), (1, 6)], latestSubLst := [] }

/-- Witness for C6: instruction 0 (changed last-use count) is reported
boosted, and the unchanged entries of the queue keep their order. -/
theorem updatePriorities_boostsExactlyChanged_witness :
    (((0 : Nat) ∈ (UpdatePriorities cW6 stW6).2 ↔
      instKey cW6 0 ≠ (7 : Nat))) ∧
    ((UpdatePriorities cW6 stW6).1.prirtyLst.filter
        (fun q => !updChanged cW6 q.1) =
      stW6.prirtyLst.filter (fun q => !updChanged cW6 q.1)) :=
  ⟨(updatePriorities_boostsExactlyChanged cW6 stW6 rfl (by decide) (by decide)
      (by decide) (by decide)).1 (0, 7) (by decide),
   (updatePriorities_boostsExactlyChanged cW6 stW6 rfl (by decide) (by decide)
      (by decide) (by decide)).2⟩

/-! ## The scheduling orchestrator (SchedRegion::FindOptimalSchedule) -/

/-- enum FUNC_RESULT as used by cuda_sched_region.cu. -/
inductive FUNC_RESULT where
  | RES_ERROR
  | RES_FAIL
  | RES_SUCCESS
  | RES_TIMEOUT
  | RES_END
deriving DecidableEq, Repr

/-- Which candidate schedule object a schedule pointer designates: the
heuristic list schedule (lstSched), the pre-search ACO schedule
(AcoSchedule), the enumerator best (enumBestSched_), or the post-search ACO
schedule. -/
inductive SchedTag where
  | heur
  | aco
  | enumBest
  | acoAfter
deriving DecidableEq, Repr

/-- enum BLOCKS_TO_KEEP; the four policies tested at cuda_sched_region.cu
lines 655-660 plus the keep-everything default. -/
inductive BLOCKS_TO_KEEP where
  | ZERO_COST
  | OPTIMAL
  | IMPROVED
  | IMPROVED_OR_OPTIMAL
  | ALL
deriving DecidableEq, Repr

/-- Everything FindOptimalSchedule reads from configuration, from the
region state, and from its external collaborators (scheduler passes, bound
computations, the enumerator, verification, ChkSchedule_): one field per
outside call outcome.  Costs and lengths are C ints (Int here,
INVALID_VALUE is -1). -/
structure OrchEnv where
  rgnTimeout : Int              -- Milliseconds rgnTimeout argument
  isLstOptml0 : Bool            -- caller value of the by-reference isLstOptml
  heurEnabledCfg : Bool         -- schedIni HEUR_ENABLED
  acoEnabledCfg : Bool          -- schedIni ACO_ENABLED
  enumEnabledCfg : Bool         -- schedIni ENUM_ENABLED
  acoBeforeCfg : Bool           -- schedIni ACO_BEFORE_ENUM
  acoAfterCfg : Bool            -- schedIni ACO_AFTER_ENUM
  isSecondPass : Bool           -- IsSecondPass()
  instCnt : Nat                 -- dataDepGraph GetInstCnt()
  setupRslt : FUNC_RESULT       -- SetupForSchdulng
  transRslt : FUNC_RESULT       -- the graph transformation loop, collapsed
  costLwrBound : Int            -- costLwrBound_ as computed in step 2
  heurRslt : FUNC_RESULT        -- list scheduler FindSchedule
  heurLen : Int                 -- lstSched GetCrntLngth()
  heurCost : Int                -- lstSched GetCost()
  acoRslt : FUNC_RESULT         -- runACO before the enumerator
  acoLen : Int                  -- AcoSchedule GetCrntLngth()
  acoCost : Int                 -- AcoSchedule GetCost()
  schedUprBoundExt : Int        -- CmputSchedUprBound_ (external virtual)
  filterByPerp : Bool           -- filterByPerp argument
  isSLIL : Bool                 -- spillCostFunc_ == SCF_SLIL
  sumPerp : Int                 -- summed positive excess register pressure
  enableEnumVirt : Bool         -- EnableEnum_() (virtual, outside src/)
  enumRslt : FUNC_RESULT        -- Optimize_ / Enumerate_
  enumCost : Int                -- bestCost_ after Enumerate_
  enumLen : Int                 -- bestSchedLngth_ after Enumerate_
  regAllocSim : Bool            -- SIMULATE_REGISTER_ALLOCATION differs from NO
  regAllocTakesInit : Bool      -- least-spills mode prefers the schedule
                                -- RegAlloc_ received as second argument
  acoAfterRslt : FUNC_RESULT    -- runACO after the enumerator
  acoAfterLen : Int
  acoAfterCost : Int
  vrfySched : Bool              -- vrfySched_
  chkTookBest : Bool            -- ChkSchedule_ (virtual, outside src/)
  blocksToKeep : BLOCKS_TO_KEEP

/-- The observable outcome of one FindOptimalSchedule run: the returned
code, which external stages were invoked, the recorded winning candidate
after incumbent selection, the reported optimality, the final state of the
by-reference outputs, the persisted final bounds, and whether the tail
bookkeeping was reached.  Fields that an early return leaves untouched keep
their defaults. -/
structure OrchResult where
  ret : FUNC_RESULT
  enumInvoked : Bool := false
  acoBeforeInvoked : Bool := false
  acoAfterInvoked : Bool := false
  incumbentTag : Option SchedTag := none
  incumbentLen : Int := -1
  incumbentCost : Int := -1
  reportedOptimal : Option Bool := none
  bestSchedOut : Option SchedTag := none
  outputsAssigned : Option (Int × Int × Int × Int) := none
  verifyInvoked : Bool := false
  finalBounds : Option (Int × Int) := none
  costAtBounds : Int := -1
  freeingReached : Bool := false
  isLstOptmlOut : Bool := false
  schedUprBound : Option Int := none
deriving DecidableEq, Repr

/-- isBbEnabled (cuda_sched_region.cu lines 74-85): ENUM_ENABLED, and a
positive region timeout. -/
def isBbEnabled (enumEnabledCfg : Bool) (rgnTimeout : Int) : Bool :=
  if enumEnabledCfg = false then false
  else if rgnTimeout ≤ 0 then false
  else true

/-- SchedRegion::FindOptimalSchedule (cuda_sched_region.cu lines 110-746)
as a function of the outside-call outcomes.  The control flow follows the
source: configuration guard, graph setup and transformations, heuristic
pass with immediate optimality on cost zero, pre-search ACO with the same
short-circuit, incumbent selection, upper bound, the SLIL zero-PERP
relaxation, the EnableEnum_ gate, the enumerator, post-search ACO,
verification, final bound reconciliation, ChkSchedule_, freeing, output
assignment and the SLIL retention policy. -/
def findOptimalSchedule (e : OrchEnv) : OrchResult :=
  -- lines 150-158: read the configuration
  let bbEnabled := isBbEnabled e.enumEnabledCfg e.rgnTimeout
  let acoBefore := e.acoEnabledCfg && e.acoBeforeCfg
  let acoAfter := e.acoEnabledCfg && e.acoAfterCfg
  -- lines 160-165: at least one producing pass must precede the enumerator
  if !e.heurEnabledCfg && !acoBefore then { ret := FUNC_RESULT.RES_ERROR }
  -- lines 180-184: SetupForSchdulng
  else if e.setupRslt ≠ FUNC_RESULT.RES_SUCCESS then { ret := e.setupRslt }
  -- lines 187-199: graph transformations
  else if e.transRslt ≠ FUNC_RESULT.RES_SUCCESS then { ret := e.transRslt }
  else
    -- lines 220-379: step 1, the heuristic pass
    let runHeur := e.heurEnabledCfg || e.isSecondPass
    if runHeur && (e.heurRslt != FUNC_RESULT.RES_SUCCESS) then
      { ret := e.heurRslt }
    else
      let heurLen : Int := if runHeur then e.heurLen else -1
      let hurstcCost : Int := if runHeur then e.heurCost else -1
      -- lines 355-362: a zero cost settles optimality at once
      let settleHeur := runHeur && (hurstcCost == 0)
      let isOpt1 := e.isLstOptml0 || settleHeur
      let bt1 : Option SchedTag := if settleHeur then some SchedTag.heur else none
      let bl1 : Int := if settleHeur then heurLen else -1
      let bc1 : Int := if settleHeur then hurstcCost else -1
      -- lines 383-384: ACO is disabled outright for small graphs
      let acoBefore2 := if acoBefore && decide (e.instCnt < 20) then false
        else acoBefore
      -- lines 385-419: step 2, pre-search ACO
      let acoRuns := acoBefore2 && !isOpt1
      if acoRuns && (e.acoRslt != FUNC_RESULT.RES_SUCCESS) then
        { ret := e.acoRslt }
      else
        let settleAco := acoRuns && (e.acoCost == 0)
        let isOpt2 := isOpt1 || settleAco
        let bt2 := if settleAco then some SchedTag.aco else bt1
        let bl2 := if settleAco then e.acoLen else bl1
        let bc2 := if settleAco then e.acoCost else bc1
        -- lines 425-449: incumbent selection when optimality is not settled
        let bt3 := if !isOpt2 then
            (if !acoBefore2 then
              (if runHeur then some SchedTag.heur else none)
            else if !e.heurEnabledCfg then some SchedTag.aco
            else if e.acoCost < hurstcCost then some SchedTag.aco
            else some SchedTag.heur)
          else bt2
        let bl3 := if !isOpt2 then
            (if !acoBefore2 then heurLen
            else if !e.heurEnabledCfg then e.acoLen
            else if e.acoCost < hurstcCost then e.acoLen
            else heurLen)
          else bl2
        let bc3 := if !isOpt2 then
            (if !acoBefore2 then hurstcCost
            else if !e.heurEnabledCfg then e.acoCost
            else if e.acoCost < hurstcCost then e.acoCost
            else hurstcCost)
          else bc2
        -- lines 456 and 837-856: CmputUprBounds_(bestSched_, false)
        let schedUpr : Int :=
          if bc3 == 0 then bl3
          else if e.isSecondPass then bl3
          else e.schedUprBoundExt
        -- lines 470-483: SLIL zero-PERP optimality relaxation
        let isOpt3 := isOpt2 ||
          (e.filterByPerp && !isOpt2 && e.isSLIL && (e.sumPerp == 0))
        -- lines 503-506: the EnableEnum_ gate returns RES_FAIL at once
        if e.enableEnumVirt = false then
          { ret := FUNC_RESULT.RES_FAIL,
            acoBeforeInvoked := acoRuns,
            incumbentTag := bt3, incumbentLen := bl3, incumbentCost := bc3,
            bestSchedOut := bt3, isLstOptmlOut := isOpt3,
            schedUprBound := some schedUpr }
        else
          -- lines 512-514
          let initLen := bl3
          let initCost := bc3
          -- lines 517-574: step 4, the enumerator
          let enumInvoked := bbEnabled && !isOpt3
          let rslt4 := if enumInvoked then e.enumRslt else FUNC_RESULT.RES_SUCCESS
          let bt4 := if enumInvoked then
              (if e.enumCost < initCost then some SchedTag.enumBest else bt3)
            else bt3
          let bl4 := if enumInvoked then e.enumLen else bl3
          let bc4 := if enumInvoked then e.enumCost else bc3
          -- lines 546-552: the optimality report
          let reported := if bbEnabled && (e.rgnTimeout != 0) then
              some (isOpt3 || (rslt4 == FUNC_RESULT.RES_SUCCESS))
            else none
          -- lines 565-570 and 901-950: register allocation simulation may
          -- swap the returned pointer; RegAlloc_(bestSched, InitialSchedule)
          -- receives the pre-search incumbent as its second argument, so the
          -- least-spills assignment bestSched = lstSched at line 944 reverts
          -- the output to that incumbent
          let outTag4 := if bbEnabled && e.regAllocSim && e.regAllocTakesInit then
              bt3
            else bt4
          -- lines 577-604: step 5, post-search ACO
          let acoAfterRuns := (bc4 != 0) && acoAfter
          let acoAfterImproves := acoAfterRuns &&
            (e.acoAfterRslt == FUNC_RESULT.RES_SUCCESS) && (e.acoAfterCost < bc4)
          let bl5 := if acoAfterImproves then e.acoAfterLen else bl4
          let bc5 := if acoAfterImproves then e.acoAfterCost else bc4
          let outTag5 := if acoAfterImproves then some SchedTag.acoAfter
            else outTag4
          -- lines 618-623: bound reconciliation persisted to the graph
          let finalUpr := e.costLwrBound + bc5
          let finalLwr := if rslt4 == FUNC_RESULT.RES_SUCCESS then finalUpr
            else e.costLwrBound
          -- lines 627-631: ChkSchedule_
          let bc6 := if e.chkTookBest then bc5 else initCost
          let bl6 := if e.chkTookBest then bl5 else initLen
          -- lines 653-665: SLIL retention policy applied after the outputs
          -- are assigned
          let optimal := isOpt3 || (rslt4 == FUNC_RESULT.RES_SUCCESS)
          let discard := e.isSLIL &&
            ((e.blocksToKeep == BLOCKS_TO_KEEP.ZERO_COST && bc6 != 0) ||
             (e.blocksToKeep == BLOCKS_TO_KEEP.OPTIMAL && !optimal) ||
             (e.blocksToKeep == BLOCKS_TO_KEEP.IMPROVED &&
               !(decide (bc6 < initCost))) ||
             (e.blocksToKeep == BLOCKS_TO_KEEP.IMPROVED_OR_OPTIMAL &&
               !(optimal || decide (bc6 < initCost))))
          { ret := rslt4,
            enumInvoked := enumInvoked,
            acoBeforeInvoked := acoRuns,
            acoAfterInvoked := acoAfterRuns,
            incumbentTag := bt3, incumbentLen := bl3, incumbentCost := bc3,
            reportedOptimal := reported,
            bestSchedOut := if discard then none else outTag5,
            outputsAssigned := some (bc6, bl6, hurstcCost, heurLen),
            verifyInvoked := e.vrfySched,
            finalBounds := some (finalLwr, finalUpr),
            costAtBounds := bc5,
            freeingReached := true,
            isLstOptmlOut := isOpt3,
            schedUprBound := some schedUpr }

/-- Baseline environment for the orchestrator witnesses: heuristic enabled,
ACO disabled, enumerator configured, all external calls succeed; overridden
per witness. -/
def envW : OrchEnv :=
  { rgnTimeout := 10, isLstOptml0 := false,
    heurEnabledCfg := true, acoEnabledCfg := false, enumEnabledCfg := true,
    acoBeforeCfg := false, acoAfterCfg := false, isSecondPass := false,
    instCnt := 30, setupRslt := .RES_SUCCESS, transRslt := .RES_SUCCESS,
    costLwrBound := 10, heurRslt := .RES_SUCCESS, heurLen := 5, heurCost := 0,
    acoRslt := .RES_SUCCESS, acoLen := 6, acoCost := 4, schedUprBoundExt := 99,
    filterByPerp := false, isSLIL := false, sumPerp := 0, enableEnumVirt := true,
    enumRslt := .RES_SUCCESS, enumCost := 0, enumLen := 0, regAllocSim := false,
    regAllocTakesInit := false, acoAfterRslt := .RES_SUCCESS, acoAfterLen := 0,
    acoAfterCost := 0, vrfySched := false, chkTookBest := true,
    blocksToKeep := .ALL }

/-! ## Claim C1 -/

/-- C1: if the heuristic pass produces a schedule of cost exactly zero, or,
when the heuristic cost is nonzero and the pre-search metaheuristic runs,
that pass produces cost zero, then the orchestrator records that schedule
as the winning candidate with that pass length and cost, the branch and
bound enumerator is never invoked, and the run is reported optimal.  The
optimality report line is emitted inside the enumerator-enabled block, so
the hypotheses include the enumerator configuration, a positive region
timeout and the EnableEnum_ gate. -/
theorem zeroCostPass_settlesOptimal (e : OrchEnv)
    (h0 : e.isLstOptml0 = false)
    (hheur : e.heurEnabledCfg = true)
    (hsetup : e.setupRslt = FUNC_RESULT.RES_SUCCESS)
    (htrans : e.transRslt = FUNC_RESULT.RES_SUCCESS)
    (hhr : e.heurRslt = FUNC_RESULT.RES_SUCCESS)
    (hacr : e.acoRslt = FUNC_RESULT.RES_SUCCESS)
    (hbb : e.enumEnabledCfg = true)
    (ht : 0 < e.rgnTimeout)
    (hgate : e.enableEnumVirt = true) :
    (e.heurCost = 0 →
      (findOptimalSchedule e).enumInvoked = false ∧
      (findOptimalSchedule e).reportedOptimal = some true ∧
      (findOptimalSchedule e).incumbentTag = some SchedTag.heur ∧
      (findOptimalSchedule e).incumbentLen = e.heurLen ∧
      (findOptimalSchedule e).incumbentCost = 0) ∧
    (e.heurCost ≠ 0 → e.acoEnabledCfg = true → e.acoBeforeCfg = true →
      20 ≤ e.instCnt → e.acoCost = 0 →
      (findOptimalSchedule e).enumInvoked = false ∧
      (findOptimalSchedule e).reportedOptimal = some true ∧
      (findOptimalSchedule e).incumbentTag = some SchedTag.aco ∧
      (findOptimalSchedule e).incumbentLen = e.acoLen ∧
      (findOptimalSchedule e).incumbentCost = 0) := by
  have hnle : ¬ (e.rgnTimeout ≤ 0) := by omega
  have hne0 : ¬ (e.rgnTimeout = 0) := by omega
  constructor
  · intro hc
    simp [findOptimalSchedule, isBbEnabled, h0, hheur, hsetup, htrans, hhr,
      hacr, hbb, hgate, hc, hnle, hne0]
  · intro hc haco hbef h20 hac
    have hlt20 : ¬ (e.instCnt < 20) := by omega
    simp [findOptimalSchedule, isBbEnabled, h0, hheur, hsetup, htrans, hhr,
      hacr, hbb, hgate, hc, hac, haco, hbef, hlt20, hnle, hne0]

/-- Witness for C1: the baseline environment with heuristic cost zero. -/
theorem zeroCostPass_settlesOptimal_witness :
    (findOptimalSchedule envW).enumInvoked = false ∧
    (findOptimalSchedule envW).reportedOptimal = some true ∧
    (findOptimalSchedule envW).incumbentTag = some SchedTag.heur ∧
    (findOptimalSchedule envW).incumbentLen = envW.heurLen ∧
    (findOptimalSchedule envW).incumbentCost = 0 :=
  (zeroCostPass_settlesOptimal envW rfl rfl rfl rfl rfl rfl rfl
    (by decide) rfl).1 rfl

/-! ## Claim C2 -/

/-- Environment with both producing passes enabled and equal nonzero
costs: the tie case of incumbent selection. -/
def envTie : OrchEnv :=
  { envW with
    acoEnabledCfg := true, acoBeforeCfg := true, heurCost := 5,
    acoCost := 5, heurLen := 7, acoLen := 6 }

/-- C2 counterexample: with both passes enabled and equal nonzero costs
(heuristic 5, metaheuristic 5) the code takes bestSched_ from the
conditional AcoScheduleCost_ < hurstcCost_, which is false on a tie, so the
heuristic schedule becomes the incumbent, not the metaheuristic one as the
claim states. -/
theorem incumbentTie_cex :
    (findOptimalSchedule envTie).acoBeforeInvoked = true ∧
    (findOptimalSchedule envTie).incumbentTag = some SchedTag.heur ∧
    some SchedTag.heur ≠ some SchedTag.aco := by
  decide

/-- C2 as amended: when no optimal schedule is settled before search,
incumbent selection obeys: if the pre-search metaheuristic did not run, the
heuristic schedule becomes the incumbent; if the heuristic was disabled,
the metaheuristic schedule becomes the incumbent; if both ran, the
strictly lower cost of the two becomes the incumbent, with ties (equal
costs) favoring the heuristic candidate (cost less-than comparison). -/
theorem incumbentSelection_law (e : OrchEnv)
    (h0 : e.isLstOptml0 = false)
    (hsetup : e.setupRslt = FUNC_RESULT.RES_SUCCESS)
    (htrans : e.transRslt = FUNC_RESULT.RES_SUCCESS)
    (hhr : e.heurRslt = FUNC_RESULT.RES_SUCCESS)
    (hacr : e.acoRslt = FUNC_RESULT.RES_SUCCESS)
    (hheurC : e.heurCost ≠ 0) (hacoC : e.acoCost ≠ 0) :
    ((e.acoEnabledCfg && e.acoBeforeCfg) = false ∨ e.instCnt < 20 →
      e.heurEnabledCfg = true →
      (findOptimalSchedule e).incumbentTag = some SchedTag.heur ∧
      (findOptimalSchedule e).incumbentLen = e.heurLen ∧
      (findOptimalSchedule e).incumbentCost = e.heurCost) ∧
    (e.heurEnabledCfg = false → e.acoEnabledCfg = true → e.acoBeforeCfg = true →
      20 ≤ e.instCnt →
      (findOptimalSchedule e).incumbentTag = some SchedTag.aco ∧
      (findOptimalSchedule e).incumbentLen = e.acoLen ∧
      (findOptimalSchedule e).incumbentCost = e.acoCost) ∧
    (e.heurEnabledCfg = true → e.acoEnabledCfg = true → e.acoBeforeCfg = true →
      20 ≤ e.instCnt →
      ((e.acoCost < e.heurCost →
        (findOptimalSchedule e).incumbentTag = some SchedTag.aco ∧
        (findOptimalSchedule e).incumbentCost = e.acoCost) ∧
       (e.heurCost ≤ e.acoCost →
        (findOptimalSchedule e).incumbentTag = some SchedTag.heur ∧
        (findOptimalSchedule e).incumbentCost = e.heurCost))) := by
  refine ⟨?_, ?_, ?_⟩
  · rintro (hno | h20) hheur
    · cases hg : e.enableEnumVirt <;>
        simp [findOptimalSchedule, isBbEnabled, h0, hheur, hsetup, htrans, hhr,
          hacr, hheurC, hacoC, hno, hg]
    · have hlt20 : e.instCnt < 20 := h20
      cases hg : e.enableEnumVirt <;>
        simp [findOptimalSchedule, isBbEnabled, h0, hheur, hsetup, htrans, hhr,
          hacr, hheurC, hacoC, hlt20, hg]
  · intro hheur haco hbef h20
    have hlt20 : ¬ (e.instCnt < 20) := by omega
    cases hsp : e.isSecondPass <;> cases hg : e.enableEnumVirt <;>
      simp [findOptimalSchedule, isBbEnabled, h0, hheur, hsetup, htrans, hhr,
        hacr, hheurC, hacoC, haco, hbef, hlt20, hsp, hg]
  · intro hheur haco hbef h20
    have hlt20 : ¬ (e.instCnt < 20) := by omega
    constructor
    · intro hlt
      cases hg : e.enableEnumVirt <;>
        simp [findOptimalSchedule, isBbEnabled, h0, hheur, hsetup, htrans, hhr,
          hacr, hheurC, hacoC, haco, hbef, hlt20, hlt, hg]
    · intro hle
      have hnlt : ¬ (e.acoCost < e.heurCost) := by omega
      cases hg : e.enableEnumVirt <;>
        simp [findOptimalSchedule, isBbEnabled, h0, hheur, hsetup, htrans, hhr,
          hacr, hheurC, hacoC, haco, hbef, hlt20, hnlt, hg]

/-- Environment with both passes enabled and the metaheuristic strictly
cheaper. -/
def envBothAco : OrchEnv :=
  { envW with
    acoEnabledCfg := true, acoBeforeCfg := true, heurCost := 5,
    acoCost := 4, heurLen := 7, acoLen := 6 }

/-- Witness for the amended C2: both passes enabled, heuristic cost 5,
metaheuristic cost 4, so the metaheuristic candidate wins with cost 4. -/
theorem incumbentSelection_law_witness :
    (findOptimalSchedule envBothAco).incumbentTag = some SchedTag.aco ∧
    (findOptimalSchedule envBothAco).incumbentCost = 4 :=
  ((incumbentSelection_law envBothAco rfl rfl rfl rfl rfl (by decide)
      (by decide)).2.2 rfl rfl rfl (by decide)).1 (by decide)

/-! ## Claim C8 -/

/-- Environment for the C8 counterexample: enumeration disabled by
configuration while the EnableEnum_ gate is open, heuristic cost 5, cost
lower bound 10. -/
def envC8 : OrchEnv :=
  { envW with enumEnabledCfg := false, heurCost := 5 }

/-- C8 counterexample: the result code tested at the bound reconciliation
is the last assigned one, not specifically the search stage result.  Here
the search stage is never invoked, yet the persisted final lower bound
equals the upper bound 15 instead of the cost lower bound 10 as the claim
requires, because the heuristic stage left RES_SUCCESS in rslt. -/
theorem finalBounds_withoutSearch_cex :
    (findOptimalSchedule envC8).enumInvoked = false ∧
    (findOptimalSchedule envC8).finalBounds = some (15, 15) ∧
    (15 : Int) ≠ envC8.costLwrBound := by
  decide

/-- C8 as amended: at the end of every completed region run, the persisted
final upper bound equals the cost lower bound plus the best cost at that
point, and the persisted final lower bound equals that upper bound exactly
when the prevailing result code is RES_SUCCESS (the search stage result
when the search ran, otherwise the last producing stage result), and the
cost lower bound otherwise. -/
theorem finalBounds_reconciliation (e : OrchEnv)
    (hguard : e.heurEnabledCfg = true ∨
      (e.acoEnabledCfg = true ∧ e.acoBeforeCfg = true))
    (hsetup : e.setupRslt = FUNC_RESULT.RES_SUCCESS)
    (htrans : e.transRslt = FUNC_RESULT.RES_SUCCESS)
    (hhr : e.heurRslt = FUNC_RESULT.RES_SUCCESS)
    (hacr : e.acoRslt = FUNC_RESULT.RES_SUCCESS)
    (hgate : e.enableEnumVirt = true) :
    (findOptimalSchedule e).finalBounds =
      some ((if (findOptimalSchedule e).ret = FUNC_RESULT.RES_SUCCESS then
          e.costLwrBound + (findOptimalSchedule e).costAtBounds
        else e.costLwrBound),
        e.costLwrBound + (findOptimalSchedule e).costAtBounds) := by
  rcases hguard with hheur | ⟨haco, hbef⟩
  · simp only [findOptimalSchedule, isBbEnabled, hheur, hsetup, htrans, hhr,
      hacr, hgate]
    simp
  · simp only [findOptimalSchedule, isBbEnabled, haco, hbef, hsetup, htrans,
      hhr, hacr, hgate]
    simp

/-- Environment for the C8 witness: search runs and times out with cost 5
left in place. -/
def envC8W : OrchEnv :=
  { envW with
    heurCost := 5, enumCost := 5, enumLen := 9,
    enumRslt := .RES_TIMEOUT }

/-- Witness for the amended C8: a timed-out search leaves ret at
RES_TIMEOUT, so the persisted bounds are lower bound 10 and upper bound
15. -/
theorem finalBounds_reconciliation_witness :
    (findOptimalSchedule envC8W).finalBounds =
      some ((if (findOptimalSchedule envC8W).ret = FUNC_RESULT.RES_SUCCESS then
          envC8W.costLwrBound + (findOptimalSchedule envC8W).costAtBounds
        else envC8W.costLwrBound),
        envC8W.costLwrBound + (findOptimalSchedule envC8W).costAtBounds) :=
  finalBounds_reconciliation envC8W (Or.inl rfl) rfl rfl rfl rfl rfl

/-! ## Claim C10 -/

/-- C10: when the EnableEnum_ gate is closed after incumbent selection,
FindOptimalSchedule returns RES_FAIL immediately: the by-reference outputs
bestCost, bestSchedLngth, hurstcCost and hurstcSchedLngth are never
assigned, verification, bound reconciliation and the freeing of losing
candidates are all skipped, the enumerator is not invoked, and yet the
bestSched output pointer has already been set to the incumbent schedule. -/
theorem enumGateOff_returnsFail (e : OrchEnv)
    (h0 : e.isLstOptml0 = false)
    (hheur : e.heurEnabledCfg = true)
    (hsetup : e.setupRslt = FUNC_RESULT.RES_SUCCESS)
    (htrans : e.transRslt = FUNC_RESULT.RES_SUCCESS)
    (hhr : e.heurRslt = FUNC_RESULT.RES_SUCCESS)
    (hacr : e.acoRslt = FUNC_RESULT.RES_SUCCESS)
    (hgate : e.enableEnumVirt = false) :
    (findOptimalSchedule e).ret = FUNC_RESULT.RES_FAIL ∧
    (findOptimalSchedule e).outputsAssigned = none ∧
    (findOptimalSchedule e).verifyInvoked = false ∧
    (findOptimalSchedule e).finalBounds = none ∧
    (findOptimalSchedule e).freeingReached = false ∧
    (findOptimalSchedule e).enumInvoked = false ∧
    (findOptimalSchedule e).bestSchedOut = (findOptimalSchedule e).incumbentTag ∧
    (findOptimalSchedule e).incumbentTag.isSome = true := by
  simp only [findOptimalSchedule, isBbEnabled, h0, hheur, hsetup, htrans, hhr,
    hacr, hgate]
  simp
  by_cases hc : e.heurCost = 0 <;> by_cases hac : e.acoCost = 0 <;>
    by_cases haco : e.acoEnabledCfg = true <;>
      by_cases hbef : e.acoBeforeCfg = true <;>
        by_cases h20 : e.instCnt < 20 <;> simp_all <;>
          try (split_ifs <;> simp)

/-- Witness for C10: the baseline environment with the gate closed. -/
theorem enumGateOff_returnsFail_witness :
    (findOptimalSchedule { envW with enableEnumVirt := false }).ret =
      FUNC_RESULT.RES_FAIL ∧
    (findOptimalSchedule { envW with enableEnumVirt := false }).outputsAssigned =
      none ∧
    (findOptimalSchedule { envW with enableEnumVirt := false }).verifyInvoked =
      false ∧
    (findOptimalSchedule { envW with enableEnumVirt := false }).finalBounds =
      none ∧
    (findOptimalSchedule { envW with enableEnumVirt := false }).freeingReached =
      false ∧
    (findOptimalSchedule { envW with enableEnumVirt := false }).enumInvoked =
      false ∧
    (findOptimalSchedule { envW with enableEnumVirt := false }).bestSchedOut =
      (findOptimalSchedule { envW with enableEnumVirt := false }).incumbentTag ∧
    (findOptimalSchedule { envW with enableEnumVirt := false }).incumbentTag.isSome =
      true :=
  enumGateOff_returnsFail { envW with enableEnumVirt := false }
    rfl rfl rfl rfl rfl rfl rfl

end OptSched
